import Mathlib

/-!
Verification of the Minix-3 filesystem driver (`src/risc_v/src/fs.rs`) against
its natural-language specification.

The development shallowly embeds the driver: the block device is a function
from byte offsets to byte values, the BIO shim (`syc_read` / `syc_write`) is
modelled with its explicit bounce-buffer arithmetic, and the zone-walking
`read` / `write` of `MinixFileSystem` are modelled as folds over the zone
pointer lists with an explicit walk state (an early `return` in the source
becomes a `done` flag that freezes the state).  Machine integers are `Nat`;
the only place where `u32` overflow could matter, the `zone * BLOCK_SIZE`
multiplications, is modelled with an explicit `% 2^32` (`zoneOff`).  All
byte reads from the device go through `diskByte`, which normalises with
`% 256`, so frame properties are stated at the `diskByte` level.
-/

/-- A block device, byte-addressable.  Reads are normalised through
`diskByte`; values outside `0..255` never reach the model's logic. -/
abbrev Disk := Nat → Nat

/-- The byte stored at offset `i` of the device. -/
def diskByte (d : Disk) (i : Nat) : Nat := d i % 256

/-- The `n` bytes starting at offset `off`, as the device driver returns them. -/
def readBytes (d : Disk) (off n : Nat) : List Nat :=
  (List.range n).map (fun k => diskByte d (off + k))

/-- Little-endian `u16` field at byte offset `off` of the device. -/
def readU16 (d : Disk) (off : Nat) : Nat :=
  diskByte d off + 256 * diskByte d (off + 1)

/-- Little-endian `u32` field at byte offset `off` of the device. -/
def readU32 (d : Disk) (off : Nat) : Nat :=
  diskByte d off + 256 * diskByte d (off + 1) + 65536 * diskByte d (off + 2) +
    16777216 * diskByte d (off + 3)

/-- Byte `k` of a caller-supplied buffer (`memcpy` reads `k` bytes past the
pointer; the model reads past the end of the list as zero). -/
def bufByte (src : List Nat) (k : Nat) : Nat := src.getD k 0 % 256

/-- `syscall_block_write`: store the listed bytes at `base`, leaving the rest
of the device unchanged. -/
def blockWrite (d : Disk) (lst : List Nat) (base : Nat) : Disk := fun a =>
  if base ≤ a ∧ a < base + lst.length then lst.getD (a - base) 0 else d a

/-- The `memcpy` inside `syc_write`: overwrite `n` bytes of `dst` starting at
position `pos` with the first `n` bytes of `src`. -/
def memcpyAt (dst src : List Nat) (pos n : Nat) : List Nat :=
  dst.take pos ++ (List.range n).map (fun k => src.getD k 0) ++ dst.drop (pos + n)

/-- `syc_read` from `fs.rs`: align the window to 512-byte sectors, read the
aligned range into a bounce buffer, and return the `size`-byte window at
`offset % 512` of the bounce buffer. -/
def sycReadBytes (d : Disk) (size off : Nat) : List Nat :=
  let blockStart := off / 512
  let blockEnd := (off + size + 511) / 512
  let temp := readBytes d (blockStart * 512) ((blockEnd - blockStart) * 512)
  (temp.drop (off % 512)).take size

/-- `syc_write` from `fs.rs`: read the sector-aligned range covering the
window (read-modify-write), memcpy the source bytes into the window, and
write the whole aligned range back. -/
def sycWrite (d : Disk) (src : List Nat) (size off : Nat) : Disk :=
  let blockStart := off / 512
  let blockEnd := (off + size + 511) / 512
  let aligned := (blockEnd - blockStart) * 512
  let temp := sycReadBytes d aligned (blockStart * 512)
  blockWrite d (memcpyAt temp src (off % 512) size) (blockStart * 512)

/-! ### On-disk data model -/

/-- `zone * BLOCK_SIZE` computed in `u32` arithmetic, as the source does. -/
def zoneOff (z : Nat) : Nat := z * 1024 % 4294967296

/-- In-memory copy of an on-disk inode (`struct Inode` of `fs.rs`).  The ten
zone pointers are a list; entries past the end read as 0. -/
structure Inode where
  mode : Nat
  nlinks : Nat
  uid : Nat
  gid : Nat
  size : Nat
  atime : Nat
  mtime : Nat
  ctime : Nat
  zones : List Nat
deriving DecidableEq, Repr

/-- Zone pointer `i` of an inode. -/
def zoneAt (ino : Inode) (i : Nat) : Nat := ino.zones.getD i 0

/-- The seven direct zone pointers, in walk order. -/
def directZones (ino : Inode) : List Nat := (List.range 7).map (zoneAt ino)

/-- A 32-bit little-endian value at slot `i` of a block held in a scratch
buffer (how the walker reinterprets an indirect block as `*const u32`). -/
def listU32 (buf : List Nat) (i : Nat) : Nat :=
  buf.getD (4 * i) 0 + 256 * buf.getD (4 * i + 1) 0 + 65536 * buf.getD (4 * i + 2) 0 +
    16777216 * buf.getD (4 * i + 3) 0

/-- An indirect pointer block: `syc_read` one block at `BLOCK_SIZE * z` and
interpret it as `NUM_IPTRS = 256` 32-bit pointers. -/
def indirectPtrs (d : Disk) (z : Nat) : List Nat :=
  (List.range 256).map (listU32 (sycReadBytes d 1024 (zoneOff z)))

/-! ### The zone walk of `MinixFileSystem::read` -/

/-- State of the `read` zone walk: `seen` is `blocks_seen`, `offsetByte` the
pending in-block offset, `bytesLeft` the bytes still wanted, `out` the bytes
already copied to the caller's buffer, and `done` records that one of the
early `return bytes_read` statements has fired (freezing the state). -/
structure RdState where
  seen : Nat
  offsetByte : Nat
  bytesLeft : Nat
  out : List Nat
  done : Bool
deriving Repr

/-- One leaf zone pointer of the read walk.  A zero pointer is skipped
without touching `seen`; otherwise, once the walk has reached `offsetBlock`,
a transfer is emitted: the block at `BLOCK_SIZE * z` is read through the BIO
shim and `min(BLOCK_SIZE - offset_byte, bytes_left)` bytes starting at
`offset_byte` are copied out, and the walk returns early when `bytes_left`
reaches zero. -/
def rdZone (d : Disk) (offsetBlock : Nat) (s : RdState) (z : Nat) : RdState :=
  if s.done then s
  else if z = 0 then s
  else if offsetBlock ≤ s.seen then
    let many := min (1024 - s.offsetByte) s.bytesLeft
    let chunk := ((sycReadBytes d 1024 (zoneOff z)).drop s.offsetByte).take many
    let s2 : RdState :=
      { seen := s.seen, offsetByte := 0, bytesLeft := s.bytesLeft - many,
        out := s.out ++ chunk, done := s.bytesLeft - many == 0 }
    if s2.done then s2 else { s2 with seen := s2.seen + 1 }
  else { s with seen := s.seen + 1 }

/-- A run of leaf zone pointers (the direct zones, or the pointers of one
indirect block). -/
def rdLevel1 (d : Disk) (ob : Nat) (s : RdState) (zs : List Nat) : RdState :=
  zs.foldl (rdZone d ob) s

/-- A doubly-indirect pointer block of `read`: every non-zero pointer names
another pointer block whose leaves are walked. -/
def rdLevel2 (d : Disk) (ob : Nat) (s : RdState) (ps : List Nat) : RdState :=
  ps.foldl (fun t p => if p = 0 then t else rdLevel1 d ob t (indirectPtrs d p)) s

/-- A triply-indirect pointer block of `read`. -/
def rdLevel3 (d : Disk) (ob : Nat) (s : RdState) (ps : List Nat) : RdState :=
  ps.foldl (fun t p => if p = 0 then t else rdLevel2 d ob t (indirectPtrs d p)) s

/-- The singly-indirect section of `read` (`inode.zones[7]`). -/
def rdSingly (d : Disk) (ob : Nat) (ino : Inode) (s : RdState) : RdState :=
  if zoneAt ino 7 ≠ 0 then rdLevel1 d ob s (indirectPtrs d (zoneAt ino 7)) else s

/-- The doubly-indirect section of `read` (`inode.zones[8]`). -/
def rdDoubly (d : Disk) (ob : Nat) (ino : Inode) (s : RdState) : RdState :=
  if zoneAt ino 8 ≠ 0 then rdLevel2 d ob s (indirectPtrs d (zoneAt ino 8)) else s

/-- The triply-indirect section of `read` (`inode.zones[9]`). -/
def rdTriply (d : Disk) (ob : Nat) (ino : Inode) (s : RdState) : RdState :=
  if zoneAt ino 9 ≠ 0 then rdLevel3 d ob s (indirectPtrs d (zoneAt ino 9)) else s

/-- The whole zone walk of `read`: the initial state (note the source clamps
`bytes_left` with `inode.size`, not `inode.size - offset`), then the direct,
singly, doubly and triply indirect sections in order. -/
def readWalk (d : Disk) (ino : Inode) (size offset : Nat) : RdState :=
  rdTriply d (offset / 1024) ino (rdDoubly d (offset / 1024) ino
    (rdSingly d (offset / 1024) ino (rdLevel1 d (offset / 1024)
      { seen := 0, offsetByte := offset % 1024,
        bytesLeft := if size > ino.size then ino.size else size, out := [], done := false }
      (directZones ino))))

namespace MinixFileSystem

/-- `MinixFileSystem::read`: returns the bytes copied into the caller's
buffer; the `u32` the source returns is the length of this list. -/
def read (d : Disk) (ino : Inode) (size offset : Nat) : List Nat :=
  (readWalk d ino size offset).out

end MinixFileSystem

/-! ### The zone walk of `MinixFileSystem::write` -/

/-- State of the `write` zone walk.  `written` is `bytes_write`; `disk` is
the device, mutated by the `syc_write` calls; `done` records an early
`return bytes_write`. -/
structure WrState where
  seen : Nat
  offsetByte : Nat
  bytesLeft : Nat
  written : Nat
  done : Bool
  disk : Disk

/-- One leaf zone pointer of the write walk.  Mirrors the source: the
emission calls `syc_write(bdev, buffer, size, zone_offset)` — the whole
caller buffer, of length `size`, at the zone's byte 0, regardless of
`offset_byte` and `bytes_write` (the `buffer.add(bytes_write)` in the
source is a discarded value).  The byte accounting then advances by
`min(BLOCK_SIZE - offset_byte, bytes_left)` as for a read. -/
def wrZone (data : List Nat) (size offsetBlock : Nat) (s : WrState) (z : Nat) : WrState :=
  if s.done then s
  else if z = 0 then s
  else if offsetBlock ≤ s.seen then
    let d2 := sycWrite s.disk data size (zoneOff z)
    let many := min (1024 - s.offsetByte) s.bytesLeft
    let s2 : WrState :=
      { seen := s.seen, offsetByte := 0, bytesLeft := s.bytesLeft - many,
        written := s.written + many, done := s.bytesLeft - many == 0, disk := d2 }
    if s2.done then s2 else { s2 with seen := s2.seen + 1 }
  else { s with seen := s.seen + 1 }

/-- Result of `MinixFileSystem::write`: the returned count, the (possibly
updated) in-memory inode, and the device state. -/
structure WrResult where
  ret : Nat
  inode : Inode
  disk : Disk

namespace MinixFileSystem

/-- The direct-zone phase of `write` (used both by `write` itself and to
state its frame property). -/
def writeDirect (d : Disk) (ino : Inode) (data : List Nat) (size offset : Nat) : WrState :=
  (directZones ino).foldl (wrZone data size (offset / 1024))
    { seen := 0, offsetByte := offset % 1024, bytesLeft := size, written := 0,
      done := false, disk := d }

/-- The state after the direct and singly-indirect phases of `write`.  The
singly-indirect pointer block is read from the current device state, i.e.
after the direct-zone writes. -/
def writeIndirect (d : Disk) (ino : Inode) (data : List Nat) (size offset : Nat) : WrState :=
  let s1 := writeDirect d ino data size offset
  if zoneAt ino 7 ≠ 0 then
    (indirectPtrs s1.disk (zoneAt ino 7)).foldl (wrZone data size (offset / 1024)) s1
  else s1

/-- `MinixFileSystem::write`.  For `write` (unlike `read`) `bytes_left`
starts at `size` with no EOF clamp.  The doubly- and triply-indirect
sections of the source never emit a transfer: their leaf test reads
`iizones`, a pointer into `iiindirect_buffer` (not `iindirect_buffer`),
which is zero-initialised and never filled, so every `iizones[j] != 0`
test is false; they perform only reads and are therefore stateless here.
`inode.size = bytes_write` runs only on the fall-through path (no early
return). -/
def write (d : Disk) (ino : Inode) (data : List Nat) (size offset : Nat) : WrResult :=
  let s2 := writeIndirect d ino data size offset
  if s2.done then { ret := s2.written, inode := ino, disk := s2.disk }
  else { ret := s2.written, inode := { ino with size := s2.written }, disk := s2.disk }

/-- The zone pointers the write walk can target: the direct zones, and if
`zones[7]` is set, the pointers of its block (read after the direct-zone
writes). -/
def writeZones (d : Disk) (ino : Inode) (data : List Nat) (size offset : Nat) : List Nat :=
  directZones ino ++
    (if zoneAt ino 7 ≠ 0 then
      indirectPtrs (writeDirect d ino data size offset).disk (zoneAt ino 7)
    else [])

/-- `MinixFileSystem::get_inode`.  The source reads the superblock into a
scratch buffer with `syc_read` and checks the magic; scratch copies are
transparent (`sycReadBytes_eq`), so the fields are read straight off the
device: magic at byte `1024 + 24`, `imap_blocks` at `1024 + 6`,
`zmap_blocks` at `1024 + 8`.  On a match it reads the inode-table block
holding inode `inode_num` and copies out entry `(inode_num - 1) % 16`
(16 inodes of 64 bytes per 1024-byte block). -/
def get_inode (d : Disk) (inodeNum : Nat) : Option Inode :=
  if readU16 d (1024 + 24) = 0x4d5a then
    let inodeOffset := (2 + readU16 d (1024 + 6) + readU16 d (1024 + 8)) * 1024 +
      ((inodeNum - 1) / 16) * 1024
    let base := inodeOffset + 64 * ((inodeNum - 1) % 16)
    some
      { mode := readU16 d base, nlinks := readU16 d (base + 2),
        uid := readU16 d (base + 4), gid := readU16 d (base + 6),
        size := readU32 d (base + 8), atime := readU32 d (base + 12),
        mtime := readU32 d (base + 16), ctime := readU32 d (base + 20),
        zones := (List.range 10).map (fun k => readU32 d (base + 24 + 4 * k)) }
  else none

/-- `MinixFileSystem::find_free_inode`: read the superblock, then scan each
imap block in order; within a block, scan the 1024 buffer bytes in order
and each byte's bits from the LSB; the first clear bit yields
`byte_index * BLOCK_SIZE + bit_index` (note: `BLOCK_SIZE`, not 8). -/
def find_free_inode (d : Disk) : Option Nat :=
  (List.range (readU16 d (1024 + 6))).findSome? (fun blk =>
    let buf := sycReadBytes d 1024 ((2 + blk) * 1024)
    (List.range 1024).findSome? (fun i =>
      (List.range 8).findSome? (fun j =>
        if buf.getD i 0 &&& (1 <<< j) = 0 then some (i * 1024 + j) else none)))

/-- `MinixFileSystem::get_imap_offset`. -/
def get_imap_offset (inodeNum : Nat) : Nat := 2 * 1024 + (inodeNum - 1) / 8

/-- `MinixFileSystem::get_inode_offset`: the hard-coded
`0x2048 + (inode_num - 2) * 0x40` of the source. -/
def get_inode_offset (inodeNum : Nat) : Nat := 0x2048 + (inodeNum - 2) * 0x40

end MinixFileSystem

/-- The inode-table byte location that `get_inode` itself computes for inode
`n` given a superblock with the stated `imap_blocks` and `zmap_blocks`: the
inode group's block offset plus the in-block index (`read_this_node`) times
the 64-byte inode size. -/
def inodeTableLoc (imap zmap n : Nat) : Nat :=
  (2 + imap + zmap) * 1024 + ((n - 1) / 16) * 1024 + 64 * ((n - 1) % 16)

/-! ### The per-device path cache -/

/-- The per-device map from absolute path to inode snapshot.  The list is
ordered newest-first; first-match lookup gives the `BTreeMap` view. -/
abbrev Cache := List (String × Inode)

/-- `BTreeMap::get`. -/
def lookupC (p : String) : Cache → Option Inode
  | [] => none
  | (k, v) :: rest => if p = k then some v else lookupC p rest

/-- `BTreeMap::insert` (under first-match lookup, the new binding shadows
any older one). -/
def insertC (btm : Cache) (k : String) (v : Inode) : Cache := (k, v) :: btm

/-- `BTreeMap::remove`. -/
def removeC (btm : Cache) (k : String) : Cache := btm.filter (fun e => e.fst != k)

/-- The `u32` inode field of directory entry `i` of a directory byte stream
(64-byte entries, inode number first, little-endian). -/
def entInode (bytes : List Nat) (i : Nat) : Nat := listU32 bytes (16 * i)

/-- Bytes of a NUL-terminated name: stop at the first 0. -/
def takeName : List Nat → List Nat
  | [] => []
  | b :: bs => if b = 0 then [] else b :: takeName bs

/-- The name of directory entry `i`: up to 60 bytes after the inode field,
ended by the first NUL, each byte pushed as a `char`. -/
def entName (bytes : List Nat) (i : Nat) : String :=
  String.mk ((takeName ((bytes.drop (64 * i + 4)).take 60)).map Char.ofNat)

/-- The path `cache_at` builds for a child entry: the parent path, a `/`
separator unless the parent is the root inode (1), then the entry name. -/
def childPath (cwd : String) (n : Nat) (name : String) : String :=
  (if n ≠ 1 then cwd ++ "/" else cwd) ++ name

/-- The path `create_new_file` / `delete_inode_and_direntry` build: append
`/` unless `cwd` already ends with one, then the name. -/
def pathJoin (cwd name : String) : String :=
  (if cwd.data.getLast? = some '/' then cwd else cwd ++ "/") ++ name

/-- The error type surfaced by the file API (`enum FsError`). -/
inductive FsError
  | Success
  | FileNotFound
  | Permission
  | IsFile
  | IsDirectory
  | FileExists
deriving DecidableEq, Repr

/-- The state the driver keeps for one block device: the device contents
and this device's slot of `MFS_INODE_CACHE` (absent until `init` or
`refresh` has built it). -/
structure MfsState where
  disk : Disk
  cache : Option Cache

/-- One directory entry of the cache build: a zero inode field is skipped,
the entry's inode is loaded (`unwrap`: the `none` arm models the
otherwise-panicking path), a directory-bit entry is recursed into through
`recur`, any other entry is inserted under its path. -/
def cacheStepG (d : Disk) (recur : Cache → String → Nat → Cache) (bytes : List Nat)
    (cwd : String) (n : Nat) (acc : Cache) (i : Nat) : Cache :=
  if entInode bytes i = 0 then acc
  else
    match MinixFileSystem.get_inode d (entInode bytes i) with
    | none => acc
    | some dino =>
      if dino.mode &&& 0o040000 ≠ 0 then
        recur acc (childPath cwd n (entName bytes i)) (entInode bytes i)
      else insertC acc (childPath cwd n (entName bytes i)) dino

namespace MinixFileSystem

/-- `MinixFileSystem::cache_at`, with an explicit recursion-depth `fuel`
(the source recursion is unbounded; the theorems quantify over the fuel).
The source `unwrap`s both `get_inode` calls; with a valid magic they always
succeed, and the `none` arms model the otherwise-panicking paths as leaving
the map unchanged.  The directory stream is read with
`read(bdev, &ino, buf, BLOCK_SIZE, 0)`, so at most the first
`min(1024, size)` bytes of a directory are examined; entries 0 and 1
(`.` and `..`) are skipped by starting the loop at 2. -/
def cache_at : Nat → Disk → Cache → String → Nat → Cache
  | 0, _, btm, _, _ => btm
  | fuel + 1, d, btm, cwd, n =>
    match get_inode d n with
    | none => btm
    | some ino =>
      let bytes := read d ino 1024 0
      ((List.range (bytes.length / 64)).drop 2).foldl
        (cacheStepG d (fun acc cwd2 n2 => cache_at fuel d acc cwd2 n2) bytes cwd n) btm

/-- `MinixFileSystem::open`: take the device's cache slot; if the slot was
never built, fail with `FileNotFound` without touching the device;
otherwise look the path up verbatim and put the slot back. -/
def openFile (st : MfsState) (path : String) : Except FsError Inode × MfsState :=
  match st.cache with
  | some cache =>
    (match lookupC path cache with
     | some ino => Except.ok ino
     | none => Except.error FsError.FileNotFound,
     { disk := st.disk, cache := some cache })
  | none => (Except.error FsError.FileNotFound, st)

/-- `MinixFileSystem::refresh`: unconditionally rebuild the cache from the
root (inode 1, path `/`). -/
def refresh (fuel : Nat) (st : MfsState) : MfsState :=
  { disk := st.disk, cache := some (cache_at fuel st.disk [] "/" 1) }

/-- `MinixFileSystem::init`: build the cache only if the slot is empty. -/
def init (fuel : Nat) (st : MfsState) : MfsState :=
  match st.cache with
  | none => refresh fuel st
  | some _ => st

end MinixFileSystem

/-- Little-endian bytes of a `u16` field. -/
def u16Bytes (v : Nat) : List Nat := [v % 256, v / 256 % 256]

/-- Little-endian bytes of a `u32` field. -/
def u32Bytes (v : Nat) : List Nat :=
  [v % 256, v / 256 % 256, v / 65536 % 256, v / 16777216 % 256]

/-- The 64-byte on-disk image of an inode (the `copy_nonoverlapping` of the
`repr(C)` struct into a scratch buffer). -/
def inodeBytes (ino : Inode) : List Nat :=
  u16Bytes ino.mode ++ u16Bytes ino.nlinks ++ u16Bytes ino.uid ++ u16Bytes ino.gid ++
    u32Bytes ino.size ++ u32Bytes ino.atime ++ u32Bytes ino.mtime ++ u32Bytes ino.ctime ++
    ((List.range 10).map (fun k => u32Bytes (zoneAt ino k))).flatten

/-- Zero the `inode` field of directory entry `i` in a directory byte
stream. -/
def zeroEntry (bytes : List Nat) (i : Nat) : List Nat :=
  (((bytes.set (64 * i) 0).set (64 * i + 1) 0).set (64 * i + 2) 0).set (64 * i + 3) 0

namespace MinixFileSystem

/-- `MinixFileSystem::create_new_file`.  `find_free_inode` is `unwrap`ped
(the `none` arm models the otherwise-panicking path); the parent inode is
looked up in the cache under `cwd` — directories are never cached, so this
lookup fails and the function returns early on every real run.  When it
does proceed, the new directory entry is appended only to the in-memory
scratch copy of the parent directory, which is never written back to the
device (so that step is stateless here), the imap read-modify-write sets
bit `free % 8` of the byte at `get_imap_offset(free)`, and the new inode is
"persisted" via `MinixFileSystem::write` at `get_inode_offset(free)` — a
zone walk over the new inode's all-zero zone list, which writes nothing. -/
def create_new_file (d : Disk) (btm : Cache) (cwd filename : String) : Disk × Cache :=
  let newInode : Inode := ⟨0o644, 1, 0, 0, 0, 0, 0, 0, List.replicate 10 0⟩
  match find_free_inode d with
  | none => (d, btm)
  | some free =>
    match lookupC cwd btm with
    | none => (d, btm)
    | some _parent =>
      let imapOff := get_imap_offset free
      let buf := sycReadBytes d 512 imapOff
      let buf2 := buf.set 0 (buf.getD 0 0 ||| (1 <<< (free % 8)))
      let d1 := sycWrite d buf2 512 imapOff
      let w := write d1 newInode (inodeBytes newInode) 64 (get_inode_offset free)
      (w.disk, insertC btm (pathJoin cwd filename) w.inode)

/-- `MinixFileSystem::create`: take the cache slot, run `create_new_file`
if the slot was present, put it back, then `refresh`. -/
def create (fuel : Nat) (st : MfsState) (cwd filename : String) : MfsState :=
  let st1 :=
    match st.cache with
    | some btm =>
      let r := create_new_file st.disk btm cwd filename
      { disk := r.fst, cache := some r.snd }
    | none => st
  refresh fuel st1

/-- `MinixFileSystem::delete_inode_and_direntry`.  The parent is always
read as inode 1 (the root); on a missing inode the source returns at once.
The first entry whose inode field equals `inode_num` has that field zeroed
and the whole stream is written back through `MinixFileSystem::write` on
the root inode; the cache key removed is `cwd + "/" + entry_name` (`cwd`
here is already the full path of the deleted file).  Whether or not an
entry matched, the imap read-modify-write then clears bit `inode_num % 8`
of the byte at `get_imap_offset(inode_num)`. -/
def delete_inode_and_direntry (d : Disk) (btm : Cache) (cwd : String) (inodeNum : Nat) :
    Disk × Cache :=
  match get_inode d 1 with
  | none => (d, btm)
  | some ino =>
    let bytes := read d ino 1024 0
    let step3 : Disk × Cache :=
      match ((List.range (bytes.length / 64)).drop 2).find?
          (fun i => entInode bytes i == inodeNum) with
      | none => (d, btm)
      | some i =>
        let w := write d ino (zeroEntry bytes i) bytes.length 0
        (w.disk, removeC btm (pathJoin cwd (entName bytes i)))
    let d1 := step3.fst
    let imapOff := get_imap_offset inodeNum
    let buf := sycReadBytes d1 512 imapOff
    let buf2 := buf.set 0 (buf.getD 0 0 &&& (255 ^^^ (1 <<< (inodeNum % 8))))
    (sycWrite d1 buf2 512 imapOff, step3.snd)

/-- `MinixFileSystem::delete`: take the cache slot, run the helper if the
slot was present, put it back, then `refresh`. -/
def delete (fuel : Nat) (st : MfsState) (path : String) (inodeNum : Nat) : MfsState :=
  let st1 :=
    match st.cache with
    | some btm =>
      let r := delete_inode_and_direntry st.disk btm path inodeNum
      { disk := r.fst, cache := some r.snd }
    | none => st
  refresh fuel st1

end MinixFileSystem

/-! ### The cache as a reachability predicate -/

/-- Whether directory entry `i` of `bytes` leads to path `p`: directly, for
a non-directory entry whose built path is `p`, or through the recursive
spec `R` for a directory-bit entry. -/
def stepHitG (d : Disk) (R : String → Nat → String → Prop) (bytes : List Nat)
    (cwd : String) (n : Nat) (i : Nat) (p : String) : Prop :=
  entInode bytes i ≠ 0 ∧
    ∃ dino, MinixFileSystem.get_inode d (entInode bytes i) = some dino ∧
      (if dino.mode &&& 0o040000 ≠ 0 then
        R (childPath cwd n (entName bytes i)) (entInode bytes i) p
      else p = childPath cwd n (entName bytes i))

/-- Depth-bounded reachability along the build-time traversal: `p` is the
path of a non-directory entry found by descending from inode `n` at path
`cwd`, examining each directory's first `min(1024, size)` bytes, skipping
entry slots 0 and 1 and zero-inode slots, and recursing into entries whose
mode has the directory bit.  This is the spec-side description of the
cache contents, compared against the `cache_at` fold below. -/
def ReachesEntry : Nat → Disk → String → Nat → String → Prop
  | 0, _, _, _, _ => False
  | fuel + 1, d, cwd, n, p =>
    ∃ ino, MinixFileSystem.get_inode d n = some ino ∧
      ∃ i, i ∈ (List.range ((MinixFileSystem.read d ino 1024 0).length / 64)).drop 2 ∧
        stepHitG d (ReachesEntry fuel d) (MinixFileSystem.read d ino 1024 0) cwd n i p

/-- Modelled from the spec: the paths of the regular files (mode bit
`0o100000`) reachable from inode `n` at path `cwd` by full directory
traversal — each directory's whole data stream is read (spec section 4.4
step 1), the `.` and `..` slots and zero-inode slots are skipped,
directory-bit entries are traversed and exactly the regular files are
collected (spec section 3: "A cache entry for path `p` exists ⇔ `p` is a
regular file reachable from root at cache-build time").  Used to state the
original C6 claim against the code's cache. -/
def specFiles : Nat → Disk → String → Nat → List String
  | 0, _, _, _ => []
  | fuel + 1, d, cwd, n =>
    match MinixFileSystem.get_inode d n with
    | none => []
    | some ino =>
      let bytes := MinixFileSystem.read d ino ino.size 0
      ((List.range (bytes.length / 64)).drop 2).foldl (fun acc i =>
        if entInode bytes i = 0 then acc
        else
          match MinixFileSystem.get_inode d (entInode bytes i) with
          | none => acc
          | some dino =>
            if dino.mode &&& 0o040000 ≠ 0 then
              acc ++ specFiles fuel d (childPath cwd n (entName bytes i)) (entInode bytes i)
            else if dino.mode &&& 0o100000 ≠ 0 then
              acc ++ [childPath cwd n (entName bytes i)]
            else acc) []

/-! ### Concrete disk images -/

/-- Store a byte list at offset `base` of a disk image. -/
def stor (base : Nat) (bytes : List Nat) (d : Disk) : Disk := fun a =>
  if base ≤ a ∧ a < base + bytes.length then bytes.getD (a - base) 0 else d a

/-- ASCII bytes of a name. -/
def strBytes (s : String) : List Nat := s.data.map Char.toNat

/-- A 64-byte on-disk directory entry: `u32` inode, NUL-padded name. -/
def dirent (ino : Nat) (name : List Nat) : List Nat :=
  u32Bytes ino ++ name ++ List.replicate (60 - name.length) 0

/-- A superblock image with the given bitmap block counts (magic `0x4d5a`
at byte 24, block size 1024). -/
def sbBytes (imap zmap : Nat) : List Nat :=
  u32Bytes 64 ++ u16Bytes 0 ++ u16Bytes imap ++ u16Bytes zmap ++ u16Bytes 8 ++ u16Bytes 0 ++
    u16Bytes 0 ++ u32Bytes 270336 ++ u32Bytes 1024 ++ u16Bytes 0x4d5a ++ u16Bytes 0 ++
    u16Bytes 1024 ++ [0]

/-- All-zero device. -/
def zeroDisk : Disk := fun _ => 0

/-- A one-zone regular file of 512 bytes (for C1). -/
def cIno1 : Inode := ⟨0o100644, 1, 0, 0, 512, 0, 0, 0, [8, 0, 0, 0, 0, 0, 0, 0, 0, 0]⟩

/-- A one-zone regular file of 1024 bytes (for C2 and C9). -/
def wrIno : Inode := ⟨0o100644, 1, 0, 0, 1024, 0, 0, 0, [8, 0, 0, 0, 0, 0, 0, 0, 0, 0]⟩

/-- A one-zone regular file of 7 bytes (for C9's counterexample). -/
def wrIno9 : Inode := ⟨0o100644, 1, 0, 0, 7, 0, 0, 0, [8, 0, 0, 0, 0, 0, 0, 0, 0, 0]⟩

/-- A 2048-byte file with a hole: `zones[0]` and `zones[2]` populated,
`zones[1] = 0` (for C3). -/
def inoC3 (z0 z2 : Nat) : Inode :=
  ⟨0o100644, 1, 0, 0, 2048, 0, 0, 0, [z0, 0, z2, 0, 0, 0, 0, 0, 0, 0]⟩

/-- Inodes of the C4/C5 disk: a root directory with two regular files. -/
def rootIno45 : Inode := ⟨0o040755, 2, 0, 0, 256, 0, 0, 0, [8, 0, 0, 0, 0, 0, 0, 0, 0, 0]⟩

def helloIno45 : Inode := ⟨0o100644, 1, 0, 0, 6, 0, 0, 0, [9, 0, 0, 0, 0, 0, 0, 0, 0, 0]⟩

def fileIno45 : Inode := ⟨0o100644, 1, 0, 0, 5, 0, 0, 0, [10, 0, 0, 0, 0, 0, 0, 0, 0, 0]⟩

/-- A formatted disk with root entries `hello.txt` (inode 2) and `file.txt`
(inode 3); imap bits 0..2 set (inodes 1..3 live). -/
def D45 : Disk :=
  stor 1024 (sbBytes 1 1)
    (stor 2048 [7]
      (stor 4096 (inodeBytes rootIno45)
        (stor 4160 (inodeBytes helloIno45)
          (stor 4224 (inodeBytes fileIno45)
            (stor 8192 (dirent 1 (strBytes ".") ++ dirent 1 (strBytes "..") ++
               dirent 2 (strBytes "hello.txt") ++ dirent 3 (strBytes "file.txt"))
              (stor 9216 (strBytes "hello!")
                (stor 10240 (strBytes "file!") (fun _ => 0))))))))

/-- The driver state for the C4/C5 scenarios: the D45 device with its cache
built (as a first `init` would leave it). -/
def st45 : MfsState := ⟨D45, some (MinixFileSystem.cache_at 8 D45 [] "/" 1)⟩

/-- Inodes of the C6 disk: a root holding a character device `cdev` (inode
4) and a directory `big` (inode 5) whose data stream spans two zones; the
regular file `deep.txt` (inode 6) sits in `big`'s 18th entry slot, past the
first 1024 bytes. -/
def rootIno6 : Inode := ⟨0o040755, 2, 0, 0, 256, 0, 0, 0, [8, 0, 0, 0, 0, 0, 0, 0, 0, 0]⟩

def cdevIno6 : Inode := ⟨0o020644, 1, 0, 0, 0, 0, 0, 0, [0, 0, 0, 0, 0, 0, 0, 0, 0, 0]⟩

def bigIno6 : Inode := ⟨0o040755, 2, 0, 0, 1152, 0, 0, 0, [9, 10, 0, 0, 0, 0, 0, 0, 0, 0]⟩

def deepIno6 : Inode := ⟨0o100644, 1, 0, 0, 4, 0, 0, 0, [11, 0, 0, 0, 0, 0, 0, 0, 0, 0]⟩

/-- The C6 disk. -/
def D6 : Disk :=
  stor 1024 (sbBytes 1 1)
    (stor 2048 [63]
      (stor 4096 (inodeBytes rootIno6)
        (stor 4288 (inodeBytes cdevIno6)
          (stor 4352 (inodeBytes bigIno6)
            (stor 4416 (inodeBytes deepIno6)
              (stor 8192 (dirent 1 (strBytes ".") ++ dirent 1 (strBytes "..") ++
                 dirent 4 (strBytes "cdev") ++ dirent 5 (strBytes "big"))
                (stor 9216 (dirent 5 (strBytes ".") ++ dirent 1 (strBytes ".."))
                  (stor 10304 (dirent 6 (strBytes "deep.txt"))
                    (stor 11264 (strBytes "abcd") (fun _ => 0))))))))))

/-- The C8 disk: `imap_blocks = 1`; imap byte 0 is `0xFF`, byte 1 is
`0x01` (first clear bit: byte 1, bit 1), and byte 128 — the byte holding
the imap bit of index 1025 — has bit 1 set. -/
def D8 : Disk := fun a =>
  if a = 1030 then 1
  else if a = 2048 then 255
  else if a = 2049 then 1
  else if a = 2176 then 2
  else 0

deriving instance DecidableEq for Except

/-! ### Proofs -/

set_option maxRecDepth 200000
theorem readBytes_length (d : Disk) (off n : Nat) : (readBytes d off n).length = n := by
  simp [readBytes]

theorem readBytes_getD (d : Disk) (off n k : Nat) :
    (readBytes d off n).getD k 0 = if k < n then diskByte d (off + k) else 0 := by
  by_cases h : k < n
  · simp [readBytes, List.getD_eq_getElem?_getD, List.getElem?_map, List.getElem?_range, h]
  · have hl : (readBytes d off n).length ≤ k := by rw [readBytes_length]; omega
    simp [List.getD_eq_getElem?_getD, List.getElem?_eq_none hl, h]

theorem readBytes_drop (d : Disk) (off n k : Nat) :
    (readBytes d off n).drop k = readBytes d (off + k) (n - k) := by
  apply List.ext_getElem?
  intro i
  rw [List.getElem?_drop]
  simp only [readBytes, List.getElem?_map]
  by_cases h : k + i < n
  · have h2 : i < n - k := by omega
    simp [List.getElem?_range, h, h2, Nat.add_assoc]
  · have e1 : (List.range n)[k+i]? = none := by
      apply List.getElem?_eq_none
      simpa using by omega
    have e2 : (List.range (n-k))[i]? = none := by
      apply List.getElem?_eq_none
      simpa using by omega
    simp [e1, e2]

theorem readBytes_take (d : Disk) (off n k : Nat) :
    (readBytes d off n).take k = readBytes d off (min k n) := by
  unfold readBytes
  rw [← List.map_take, List.take_range]

/-- The net effect of `syc_read`: the bounce buffer is transparent, the caller
receives exactly the `size` bytes at `off`. -/
theorem sycReadBytes_eq (d : Disk) (size off : Nat) :
    sycReadBytes d size off = readBytes d off size := by
  unfold sycReadBytes
  simp only [readBytes_drop, readBytes_take]
  congr 1 <;> omega

theorem sycReadBytes_length (d : Disk) (size off : Nat) :
    (sycReadBytes d size off).length = size := by
  rw [sycReadBytes_eq, readBytes_length]

theorem memcpyAt_getElem? (dst src : List Nat) (pos n k : Nat) (h : pos + n ≤ dst.length) :
    (memcpyAt dst src pos n)[k]? =
      if pos ≤ k ∧ k < pos + n then some (src.getD (k - pos) 0) else dst[k]? := by
  have hlt : (dst.take pos).length = pos := by rw [List.length_take]; omega
  have hlm : ((List.range n).map (fun j => src.getD j 0)).length = n := by simp
  unfold memcpyAt
  rw [List.getElem?_append, List.getElem?_append, List.length_append, hlt, hlm]
  rcases Nat.lt_or_ge k pos with hk | hk
  · rw [if_pos (by omega), if_pos hk, List.getElem?_take_of_lt hk, if_neg (by omega)]
  · rcases Nat.lt_or_ge k (pos + n) with hk2 | hk2
    · rw [if_pos (by omega), if_neg (by omega), if_pos ⟨hk, hk2⟩,
        List.getElem?_map, List.getElem?_range (by omega)]
      rfl
    · rw [if_neg (by omega), List.getElem?_drop, if_neg (by omega)]
      congr 1
      omega

/-- The net effect of `syc_write` on the device, byte by byte: the `size`
bytes at `off` become the source bytes, everything else keeps its value
(the read-modify-write rewrites the rest of the first and last sector with
the bytes it just read). -/
theorem diskByte_sycWrite (d : Disk) (src : List Nat) (size off a : Nat) :
    diskByte (sycWrite d src size off) a =
      if off ≤ a ∧ a < off + size then bufByte src (a - off) else diskByte d a := by
  have habs : off % 512 + size ≤ ((off + size + 511) / 512 - off / 512) * 512 := by omega
  have hbase : off / 512 * 512 + off % 512 = off := by omega
  unfold sycWrite blockWrite
  simp only [diskByte]
  have hlen : (memcpyAt (sycReadBytes d (((off + size + 511) / 512 - off / 512) * 512)
      (off / 512 * 512)) src (off % 512) size).length =
      ((off + size + 511) / 512 - off / 512) * 512 := by
    unfold memcpyAt
    rw [List.length_append, List.length_append, List.length_take, List.length_drop,
      sycReadBytes_length]
    simp only [List.length_map, List.length_range]
    omega
  rw [hlen]
  by_cases hin : off / 512 * 512 ≤ a ∧ a < off / 512 * 512 + ((off + size + 511) / 512 - off / 512) * 512
  · rw [if_pos hin, List.getD_eq_getElem?_getD,
      memcpyAt_getElem? _ _ _ _ _ (by rw [sycReadBytes_length]; omega)]
    by_cases hw : off ≤ a ∧ a < off + size
    · rw [if_pos (by omega), if_pos hw]
      have : a - off / 512 * 512 - off % 512 = a - off := by omega
      simp [bufByte, this]
    · rw [if_neg (by omega), if_neg hw, ← List.getD_eq_getElem?_getD,
        sycReadBytes_eq, readBytes_getD, if_pos (by omega)]
      have : off / 512 * 512 + (a - off / 512 * 512) = a := by omega
      rw [this]
      simp [diskByte]
  · rw [if_neg hin, if_neg (by omega)]

/-! ### Invariants of the read walk -/

theorem foldlPreserve {α β : Type} (P : α → Prop) {f : α → β → α}
    (hf : ∀ a b, P a → P (f a b)) :
    ∀ (l : List β) (a : α), P a → P (l.foldl f a) := by
  intro l
  induction l with
  | nil => intro a h; exact h
  | cons b bs ih => intro a h; exact ih _ (hf _ _ h)

theorem rdZone_inv {K : Nat} (d : Disk) (ob : Nat) (s : RdState) (z : Nat)
    (h : s.out.length + s.bytesLeft = K) :
    (rdZone d ob s z).out.length + (rdZone d ob s z).bytesLeft = K := by
  unfold rdZone
  split
  · exact h
  · split
    · exact h
    · split
      · have hlen : (((sycReadBytes d 1024 (zoneOff z)).drop s.offsetByte).take
            (min (1024 - s.offsetByte) s.bytesLeft)).length
            = min (1024 - s.offsetByte) s.bytesLeft := by
          rw [List.length_take, List.length_drop, sycReadBytes_length]
          omega
        dsimp only
        split <;> simp only [List.length_append, hlen] <;> omega
      · exact h

theorem rdLevel1_inv {K : Nat} (d : Disk) (ob : Nat) (zs : List Nat) (s : RdState)
    (h : s.out.length + s.bytesLeft = K) :
    (rdLevel1 d ob s zs).out.length + (rdLevel1 d ob s zs).bytesLeft = K :=
  foldlPreserve (fun t => t.out.length + t.bytesLeft = K)
    (fun a b hp => rdZone_inv d ob a b hp) zs s h

theorem rdLevel2_inv {K : Nat} (d : Disk) (ob : Nat) (ps : List Nat) (s : RdState)
    (h : s.out.length + s.bytesLeft = K) :
    (rdLevel2 d ob s ps).out.length + (rdLevel2 d ob s ps).bytesLeft = K := by
  refine foldlPreserve (fun t => t.out.length + t.bytesLeft = K) (fun t p hp => ?_) ps s h
  dsimp only
  split
  · exact hp
  · exact rdLevel1_inv d ob _ t hp

theorem rdLevel3_inv {K : Nat} (d : Disk) (ob : Nat) (ps : List Nat) (s : RdState)
    (h : s.out.length + s.bytesLeft = K) :
    (rdLevel3 d ob s ps).out.length + (rdLevel3 d ob s ps).bytesLeft = K := by
  refine foldlPreserve (fun t => t.out.length + t.bytesLeft = K) (fun t p hp => ?_) ps s h
  dsimp only
  split
  · exact hp
  · exact rdLevel2_inv d ob _ t hp

theorem rdSingly_inv {K : Nat} (d : Disk) (ob : Nat) (ino : Inode) (s : RdState)
    (h : s.out.length + s.bytesLeft = K) :
    (rdSingly d ob ino s).out.length + (rdSingly d ob ino s).bytesLeft = K := by
  unfold rdSingly
  split
  · exact rdLevel1_inv d ob _ s h
  · exact h

theorem rdDoubly_inv {K : Nat} (d : Disk) (ob : Nat) (ino : Inode) (s : RdState)
    (h : s.out.length + s.bytesLeft = K) :
    (rdDoubly d ob ino s).out.length + (rdDoubly d ob ino s).bytesLeft = K := by
  unfold rdDoubly
  split
  · exact rdLevel2_inv d ob _ s h
  · exact h

theorem rdTriply_inv {K : Nat} (d : Disk) (ob : Nat) (ino : Inode) (s : RdState)
    (h : s.out.length + s.bytesLeft = K) :
    (rdTriply d ob ino s).out.length + (rdTriply d ob ino s).bytesLeft = K := by
  unfold rdTriply
  split
  · exact rdLevel3_inv d ob _ s h
  · exact h

/-- The fundamental accounting of the read walk: `bytes_read + bytes_left`
is constant, equal to the initial clamp `min(size, inode.size)`. -/
theorem readWalk_inv (d : Disk) (ino : Inode) (size offset : Nat) :
    (readWalk d ino size offset).out.length + (readWalk d ino size offset).bytesLeft
      = if size > ino.size then ino.size else size := by
  unfold readWalk
  apply rdTriply_inv
  apply rdDoubly_inv
  apply rdSingly_inv
  apply rdLevel1_inv
  simp

/-! ### Invariants of the write walk -/

/-- The byte accounting of one write step: `bytes_write + bytes_left` is
constant and `done` is set exactly when `bytes_left` hits zero. -/
theorem wrZone_inv {size : Nat} (data : List Nat) (ob : Nat) (s : WrState) (z : Nat)
    (h1 : s.written + s.bytesLeft = size) (h2 : s.done = true → s.bytesLeft = 0)
    (h3 : 0 < size → s.bytesLeft = 0 → s.done = true) :
    (wrZone data size ob s z).written + (wrZone data size ob s z).bytesLeft = size ∧
      ((wrZone data size ob s z).done = true → (wrZone data size ob s z).bytesLeft = 0) ∧
      (0 < size → (wrZone data size ob s z).bytesLeft = 0 →
        (wrZone data size ob s z).done = true) := by
  unfold wrZone
  split
  · exact ⟨h1, h2, h3⟩
  split
  · exact ⟨h1, h2, h3⟩
  split
  · dsimp only
    by_cases hbm : s.bytesLeft - min (1024 - s.offsetByte) s.bytesLeft = 0
    · have hb : (s.bytesLeft - min (1024 - s.offsetByte) s.bytesLeft == 0) = true := by
        simpa using hbm
      simp only [hb, if_true]
      refine ⟨by omega, fun _ => by omega, fun _ _ => trivial⟩
    · have hb : (s.bytesLeft - min (1024 - s.offsetByte) s.bytesLeft == 0) = false := by
        simpa using hbm
      simp only [hb, Bool.false_eq_true, if_false]
      refine ⟨by omega, fun h => by simp at h, fun _ h => absurd h hbm⟩
  · exact ⟨h1, h2, h3⟩

/-- The write-walk invariant, lifted over a run of zone pointers. -/
theorem wrFold_inv (data : List Nat) {size : Nat} (ob : Nat) (zs : List Nat) (s : WrState)
    (h : s.written + s.bytesLeft = size ∧ (s.done = true → s.bytesLeft = 0) ∧
      (0 < size → s.bytesLeft = 0 → s.done = true)) :
    (zs.foldl (wrZone data size ob) s).written + (zs.foldl (wrZone data size ob) s).bytesLeft
        = size ∧
      ((zs.foldl (wrZone data size ob) s).done = true →
        (zs.foldl (wrZone data size ob) s).bytesLeft = 0) ∧
      (0 < size → (zs.foldl (wrZone data size ob) s).bytesLeft = 0 →
        (zs.foldl (wrZone data size ob) s).done = true) :=
  foldlPreserve
    (fun t => t.written + t.bytesLeft = size ∧ (t.done = true → t.bytesLeft = 0) ∧
      (0 < size → t.bytesLeft = 0 → t.done = true))
    (fun t z hp => wrZone_inv data ob t z hp.1 hp.2.1 hp.2.2) zs s h

/-- The write-walk invariant holds of the state after the direct and
singly-indirect phases. -/
theorem writeIndirect_inv (d : Disk) (ino : Inode) (data : List Nat) (size offset : Nat) :
    (MinixFileSystem.writeIndirect d ino data size offset).written
        + (MinixFileSystem.writeIndirect d ino data size offset).bytesLeft = size ∧
      ((MinixFileSystem.writeIndirect d ino data size offset).done = true →
        (MinixFileSystem.writeIndirect d ino data size offset).bytesLeft = 0) ∧
      (0 < size → (MinixFileSystem.writeIndirect d ino data size offset).bytesLeft = 0 →
        (MinixFileSystem.writeIndirect d ino data size offset).done = true) := by
  have base : (0 : Nat) + size = size ∧ ((false : Bool) = true → size = 0) ∧
      (0 < size → size = 0 → (false : Bool) = true) :=
    ⟨by omega, fun h => by simp at h, fun hpos h0 => absurd h0 (by omega)⟩
  unfold MinixFileSystem.writeIndirect MinixFileSystem.writeDirect
  split
  · exact wrFold_inv data _ _ _ (wrFold_inv data _ _ _ base)
  · exact wrFold_inv data _ _ _ base

/-- Disk bytes outside the targeted ranges of a run of zone pointers are
untouched by the write walk. -/
theorem wrFold_frame (data : List Nat) (size ob a : Nat) :
    ∀ (zs : List Nat) (s : WrState),
      (∀ z ∈ zs, z ≠ 0 → ¬(zoneOff z ≤ a ∧ a < zoneOff z + size)) →
      diskByte ((zs.foldl (wrZone data size ob) s).disk) a = diskByte s.disk a := by
  intro zs
  induction zs with
  | nil => intro s _; rfl
  | cons z rest ih =>
    intro s hz
    rw [List.foldl_cons, ih _ (fun z' h' hne => hz z' (List.mem_cons_of_mem _ h') hne)]
    unfold wrZone
    by_cases hd : s.done = true
    · rw [if_pos hd]
    · rw [if_neg hd]
      by_cases hz0 : z = 0
      · rw [if_pos hz0]
      · rw [if_neg hz0]
        by_cases hob : ob ≤ s.seen
        · rw [if_pos hob]
          have hfr := hz z (List.mem_cons_self z rest) hz0
          dsimp only
          split <;> · dsimp only; rw [diskByte_sycWrite, if_neg hfr]
        · rw [if_neg hob]

/-- `write` never touches a disk byte outside the `size`-byte windows that
start at the walked zones' offsets; in particular, with zones pointing at
data blocks, the inode table is never written. -/
theorem write_frame (d : Disk) (ino : Inode) (data : List Nat) (size offset a : Nat)
    (hz : ∀ z ∈ MinixFileSystem.writeZones d ino data size offset,
      z ≠ 0 → ¬(zoneOff z ≤ a ∧ a < zoneOff z + size)) :
    diskByte (MinixFileSystem.write d ino data size offset).disk a = diskByte d a := by
  have hdisk : (MinixFileSystem.write d ino data size offset).disk
      = (MinixFileSystem.writeIndirect d ino data size offset).disk := by
    simp only [MinixFileSystem.write]
    split <;> rfl
  rw [hdisk]
  unfold MinixFileSystem.writeZones at hz
  unfold MinixFileSystem.writeIndirect
  by_cases h7 : zoneAt ino 7 ≠ 0
  · rw [if_pos h7]
    rw [if_pos h7] at hz
    rw [wrFold_frame data size (offset / 1024) a _ _
      (fun z h hne => hz z (List.mem_append_right _ h) hne)]
    unfold MinixFileSystem.writeDirect
    exact wrFold_frame data size (offset / 1024) a _ _
      (fun z h hne => hz z (List.mem_append_left _ h) hne)
  · rw [if_neg h7]
    rw [if_neg h7] at hz
    unfold MinixFileSystem.writeDirect
    exact wrFold_frame data size (offset / 1024) a _ _
      (fun z h hne => hz z (List.mem_append_left _ h) hne)

/-! ### Characterising the bitmap scan -/

theorem findSome_congr {α β : Type} (l : List α) (f g : α → Option β)
    (h : ∀ x ∈ l, f x = g x) : l.findSome? f = l.findSome? g := by
  induction l with
  | nil => rfl
  | cons a as ih =>
    rw [List.findSome?_cons, List.findSome?_cons, h a (List.mem_cons_self a as),
      ih (fun x hx => h x (List.mem_cons_of_mem _ hx))]

theorem findSome_range_none {α : Type} (f : Nat → Option α) (n : Nat) :
    (List.range n).findSome? f = none ↔ ∀ k, k < n → f k = none := by
  rw [List.findSome?_eq_none_iff]
  constructor
  · intro h k hk
    exact h k (List.mem_range.mpr hk)
  · intro h x hx
    exact h x (List.mem_range.mp hx)

theorem findSome_range_some {α : Type} (f : Nat → Option α) (n : Nat) (v : α)
    (h : (List.range n).findSome? f = some v) :
    ∃ k, k < n ∧ f k = some v ∧ ∀ k', k' < k → f k' = none := by
  induction n with
  | zero => simp [List.range_zero] at h
  | succ m ih =>
    rw [List.range_succ, List.findSome?_append] at h
    cases hm : (List.range m).findSome? f with
    | some w =>
      rw [hm] at h
      simp only [Option.or_some] at h
      obtain ⟨k, hk, hfk, hmin⟩ := ih (hm.trans (by rw [h]))
      exact ⟨k, Nat.lt_succ_of_lt hk, hfk, hmin⟩
    | none =>
      rw [hm, Option.none_or] at h
      simp only [List.findSome?_cons, List.findSome?_nil] at h
      have hfm : f m = some v := by
        cases hfm : f m with
        | none => rw [hfm] at h; simp at h
        | some w => rw [hfm] at h; simp at h; exact congrArg some h
      refine ⟨m, Nat.lt_succ_self m, hfm, fun k' hk' => ?_⟩
      exact (findSome_range_none f m).mp hm k' hk'

theorem iteSomeNone {α : Type} {c : Prop} [Decidable c] {x : α} :
    (if c then some x else none) = none ↔ ¬ c := by
  split <;> simp [*]

/-- The buffer copies inside `find_free_inode` are transparent: the scan
tests bit `j` of the imap byte at device offset `(2 + blk) * 1024 + i`. -/
theorem find_free_inode_clean (d : Disk) :
    MinixFileSystem.find_free_inode d
      = (List.range (readU16 d (1024 + 6))).findSome? (fun blk =>
          (List.range 1024).findSome? (fun i =>
            (List.range 8).findSome? (fun j =>
              if diskByte d ((2 + blk) * 1024 + i) &&& (1 <<< j) = 0
              then some (i * 1024 + j) else none))) := by
  unfold MinixFileSystem.find_free_inode
  apply findSome_congr
  intro blk _
  apply findSome_congr
  intro i hi
  have hb : (sycReadBytes d 1024 ((2 + blk) * 1024)).getD i 0
      = diskByte d ((2 + blk) * 1024 + i) := by
    rw [sycReadBytes_eq, readBytes_getD, if_pos (List.mem_range.mp hi)]
  rw [hb]

/-- C8 (amended): `find_free_inode` reads the superblock, scans the imap
blocks sequentially, the 1024 buffer bytes of each block in order and each
byte's bits LSB-first, and returns `byte_index * BLOCK_SIZE + bit_index`
for the first clear bit in scan order; this value is not the 0-based bitmap
index of that clear bit (which would be `byte_index * 8 + bit_index`), so
it is not in general an index whose imap bit is clear, nor the lowest such;
it returns `none` exactly when every bit of every imap block is set. -/
theorem c8_find_free_first_clear (d : Disk) :
    (MinixFileSystem.find_free_inode d = none ↔
      ∀ blk, blk < readU16 d (1024 + 6) → ∀ i, i < 1024 → ∀ j, j < 8 →
        diskByte d ((2 + blk) * 1024 + i) &&& (1 <<< j) ≠ 0) ∧
    (∀ v, MinixFileSystem.find_free_inode d = some v →
      ∃ blk i j, blk < readU16 d (1024 + 6) ∧ i < 1024 ∧ j < 8 ∧
        diskByte d ((2 + blk) * 1024 + i) &&& (1 <<< j) = 0 ∧ v = i * 1024 + j ∧
        ∀ blk' i' j', i' < 1024 → j' < 8 →
          (blk' < blk ∨ (blk' = blk ∧ i' < i) ∨ (blk' = blk ∧ i' = i ∧ j' < j)) →
          diskByte d ((2 + blk') * 1024 + i') &&& (1 <<< j') ≠ 0) := by
  rw [find_free_inode_clean]
  constructor
  · rw [findSome_range_none]
    constructor
    · intro h blk hblk i hi j hj
      have h1 := h blk hblk
      rw [findSome_range_none] at h1
      have h2 := h1 i hi
      rw [findSome_range_none] at h2
      have h3 := h2 j hj
      rwa [iteSomeNone] at h3
    · intro h blk hblk
      rw [findSome_range_none]
      intro i hi
      rw [findSome_range_none]
      intro j hj
      rw [iteSomeNone]
      exact h blk hblk i hi j hj
  · intro v hv
    obtain ⟨blk, hblk, hFblk, hblkmin⟩ := findSome_range_some _ _ _ hv
    obtain ⟨i, hi, hFi, himin⟩ := findSome_range_some _ _ _ hFblk
    obtain ⟨j, hj, hFj, hjmin⟩ := findSome_range_some _ _ _ hFi
    have hcv : diskByte d ((2 + blk) * 1024 + i) &&& (1 <<< j) = 0 ∧ v = i * 1024 + j := by
      by_cases hc : diskByte d ((2 + blk) * 1024 + i) &&& (1 <<< j) = 0
      · rw [if_pos hc] at hFj
        exact ⟨hc, (Option.some.inj hFj).symm⟩
      · rw [if_neg hc] at hFj
        exact absurd hFj (by simp)
    refine ⟨blk, i, j, hblk, hi, hj, hcv.1, hcv.2, ?_⟩
    intro blk' i' j' hi' hj' hlex
    rcases hlex with hb | ⟨hbe, hii⟩ | ⟨hbe, hie, hjj⟩
    · have h1 := hblkmin blk' hb
      rw [findSome_range_none] at h1
      have h2 := h1 i' hi'
      rw [findSome_range_none] at h2
      have h3 := h2 j' hj'
      rwa [iteSomeNone] at h3
    · subst hbe
      have h1 := himin i' hii
      rw [findSome_range_none] at h1
      have h3 := h1 j' hj'
      rwa [iteSomeNone] at h3
    · subst hbe
      subst hie
      have h3 := hjmin j' hjj
      rwa [iteSomeNone] at h3

theorem lookupC_isSome_insertC (btm : Cache) (k : String) (v : Inode) (p : String) :
    (lookupC p (insertC btm k v)).isSome = true ↔
      (p = k ∨ (lookupC p btm).isSome = true) := by
  show (if p = k then some v else lookupC p btm).isSome = true ↔ _
  by_cases hp : p = k
  · simp [hp]
  · simp [hp]

/-- The entry loop of the cache build, characterised: a path is present
after the loop iff it was present before or some processed entry leads to
it. -/
theorem foldl_cacheStep_lookup (d : Disk) (R : Cache → String → Nat → Cache)
    (Rspec : String → Nat → String → Prop)
    (hR : ∀ btm cwd2 n2 p, (lookupC p (R btm cwd2 n2)).isSome = true ↔
      ((lookupC p btm).isSome = true ∨ Rspec cwd2 n2 p))
    (bytes : List Nat) (cwd : String) (n : Nat) :
    ∀ (is : List Nat) (btm : Cache) (p : String),
      (lookupC p (is.foldl (cacheStepG d R bytes cwd n) btm)).isSome = true ↔
        ((lookupC p btm).isSome = true ∨
          ∃ i, i ∈ is ∧ stepHitG d Rspec bytes cwd n i p) := by
  intro is
  induction is with
  | nil =>
    intro btm p
    simp
  | cons i rest ih =>
    intro btm p
    rw [List.foldl_cons, ih]
    have hstep : (lookupC p (cacheStepG d R bytes cwd n btm i)).isSome = true ↔
        ((lookupC p btm).isSome = true ∨ stepHitG d Rspec bytes cwd n i p) := by
      unfold cacheStepG stepHitG
      by_cases h0 : entInode bytes i = 0
      · rw [if_pos h0]
        simp [h0]
      · rw [if_neg h0]
        cases hino : MinixFileSystem.get_inode d (entInode bytes i) with
        | none => simp
        | some dino =>
          dsimp only
          by_cases hdir : dino.mode &&& 0o040000 ≠ 0
          · rw [if_pos hdir, hR]
            constructor
            · rintro (hl | hr)
              · exact Or.inl hl
              · exact Or.inr ⟨h0, dino, rfl, by rw [if_pos hdir]; exact hr⟩
            · rintro (hl | ⟨_, dino2, hd2, hif⟩)
              · exact Or.inl hl
              · obtain rfl : dino = dino2 := Option.some.inj hd2
                rw [if_pos hdir] at hif
                exact Or.inr hif
          · rw [if_neg hdir, lookupC_isSome_insertC]
            constructor
            · rintro (hp | hl)
              · exact Or.inr ⟨h0, dino, rfl, by rw [if_neg hdir]; exact hp⟩
              · exact Or.inl hl
            · rintro (hl | ⟨_, dino2, hd2, hif⟩)
              · exact Or.inr hl
              · obtain rfl : dino = dino2 := Option.some.inj hd2
                rw [if_neg hdir] at hif
                exact Or.inl hif
    rw [hstep]
    constructor
    · rintro ((h | h) | ⟨i2, hi2, hh⟩)
      · exact Or.inl h
      · exact Or.inr ⟨i, List.mem_cons_self i rest, h⟩
      · exact Or.inr ⟨i2, List.mem_cons_of_mem _ hi2, hh⟩
    · rintro (h | ⟨i2, hi2, hh⟩)
      · exact Or.inl (Or.inl h)
      · rcases List.mem_cons.mp hi2 with he | hm
        · subst he
          exact Or.inl (Or.inr hh)
        · exact Or.inr ⟨i2, hm, hh⟩

/-- The refinement at the heart of C6: a path is in the cache built by
`cache_at` iff it was in the initial map or it is reachable (in the
depth-bounded sense of `ReachesEntry`) from the starting directory. -/
theorem cache_lookup_iff_reach :
    ∀ (fuel : Nat) (d : Disk) (btm : Cache) (cwd : String) (n : Nat) (p : String),
      (lookupC p (MinixFileSystem.cache_at fuel d btm cwd n)).isSome = true ↔
        ((lookupC p btm).isSome = true ∨ ReachesEntry fuel d cwd n p) := by
  intro fuel
  induction fuel with
  | zero =>
    intro d btm cwd n p
    simp [MinixFileSystem.cache_at, ReachesEntry]
  | succ f ih =>
    intro d btm cwd n p
    unfold MinixFileSystem.cache_at ReachesEntry
    cases hino : MinixFileSystem.get_inode d n with
    | none => simp
    | some ino =>
      rw [foldl_cacheStep_lookup d _ (ReachesEntry f d)
        (fun btm2 cwd2 n2 p2 => ih d btm2 cwd2 n2 p2)]
      simp

/-! ### The claims -/

/-- C1 (amended): for every inode and every call
`read(bdev, inode, buffer, size, offset)`, the returned byte count is at
most `min(size, inode.size)`.  (The source clamps `bytes_left` with
`inode.size` alone, not `inode.size - offset`, so the claimed bound
`min(size, inode.size - offset)` — and with it "a read past EOF returns
0" — does not hold; see the counterexample.) -/
theorem c1_read_le_min (d : Disk) (ino : Inode) (size offset : Nat) :
    (MinixFileSystem.read d ino size offset).length ≤ min size ino.size := by
  have h := readWalk_inv d ino size offset
  unfold MinixFileSystem.read
  split at h <;> omega

/-- C1 counterexample: on a 512-byte one-zone file, `read` with
`size = 1024` at `offset = 512` (= `inode.size`, i.e. at EOF) returns 512
bytes, exceeding `min(size, inode.size - offset) = 0` and contradicting
"a read past EOF returns 0". -/
theorem c1_counterexample :
    (MinixFileSystem.read zeroDisk cIno1 1024 512).length = 512 ∧
    ¬ (MinixFileSystem.read zeroDisk cIno1 1024 512).length ≤ min 1024 (cIno1.size - 512) ∧
    cIno1.size ≤ 512 ∧
    (MinixFileSystem.read zeroDisk cIno1 1024 512).length ≠ 0 := by decide

/-- C2 (code_bug): the write/read round trip fails even inside an
allocated zone.  Writing `[1,2,3,4]` at offset 512 of a one-zone 1024-byte
file and reading the same range back yields `[0,0,0,0]`, not the data:
`write` emits `syc_write(bdev, buffer, size, zone_offset)`, which stores
the buffer at the zone's byte 0 (third conjunct), ignoring `offset_byte`
and `bytes_write`, so the bytes at file offset 512 are never written. -/
theorem c2_write_read_roundtrip_fails :
    MinixFileSystem.read (MinixFileSystem.write zeroDisk wrIno [1, 2, 3, 4] 4 512).disk
        (MinixFileSystem.write zeroDisk wrIno [1, 2, 3, 4] 4 512).inode 4 512 = [0, 0, 0, 0] ∧
    ([0, 0, 0, 0] : List Nat) ≠ [1, 2, 3, 4] ∧
    readBytes (MinixFileSystem.write zeroDisk wrIno [1, 2, 3, 4] 4 512).disk (zoneOff 8) 4
      = [1, 2, 3, 4] := by decide

/-- C3 (confirmed): a zone pointer of 0 is skipped without incrementing
`blocks_seen`, in the read walk and in the write walk alike (third and
fourth conjuncts, for any walk state), so for an inode with
`zones[0]` and `zones[2]` populated and `zones[1] = 0` the logical stream
is the concatenation of the two non-zero zones: its length is `2 * 1024`
(second conjunct: a 4096-byte read at offset 0 returns 2048 bytes), and a
1024-byte read at offset 1024 returns the contents of `zones[2]` (first
conjunct). -/
theorem c3_zone_hole_skip (d : Disk) (z0 z2 : Nat) (hz0 : z0 ≠ 0) (hz2 : z2 ≠ 0) :
    MinixFileSystem.read d (inoC3 z0 z2) 1024 1024 = readBytes d (zoneOff z2) 1024 ∧
    (MinixFileSystem.read d (inoC3 z0 z2) 4096 0).length = 2048 ∧
    (∀ ob s, rdZone d ob s 0 = s) ∧
    (∀ data size ob s, wrZone data size ob s 0 = s) := by
  refine ⟨?_, ?_, ?_, ?_⟩
  · unfold MinixFileSystem.read readWalk
    have hdz : directZones (inoC3 z0 z2) = [z0, 0, z2, 0, 0, 0, 0] := rfl
    rw [hdz]
    unfold rdLevel1
    simp only [List.foldl_cons, List.foldl_nil]
    simp [rdZone, rdSingly, rdDoubly, rdTriply, hz0, hz2, sycReadBytes_eq, zoneAt, inoC3,
      readBytes_take, readBytes_drop]
  · unfold MinixFileSystem.read readWalk
    have hdz : directZones (inoC3 z0 z2) = [z0, 0, z2, 0, 0, 0, 0] := rfl
    rw [hdz]
    unfold rdLevel1
    simp only [List.foldl_cons, List.foldl_nil]
    simp [rdZone, rdSingly, rdDoubly, rdTriply, hz0, hz2, sycReadBytes_eq, zoneAt, inoC3,
      readBytes_take, readBytes_drop, readBytes_length]
  · intro ob s
    unfold rdZone
    split
    · rfl
    · rw [if_pos rfl]
  · intro data size ob s
    unfold wrZone
    split
    · rfl
    · rw [if_pos rfl]

/-- C3 witness: the scenario at `z0 = 1`, `z2 = 2` on the zero disk. -/
theorem c3_zone_hole_skip_witness :
    MinixFileSystem.read zeroDisk (inoC3 1 2) 1024 1024 = readBytes zeroDisk (zoneOff 2) 1024 ∧
    (MinixFileSystem.read zeroDisk (inoC3 1 2) 4096 0).length = 2048 ∧
    (∀ ob s, rdZone zeroDisk ob s 0 = s) ∧
    (∀ data size ob s, wrZone data size ob s 0 = s) :=
  c3_zone_hole_skip zeroDisk 1 2 (by decide) (by decide)

/-- C4 (code_bug): on a formatted disk with an initialized cache,
`create(dev, "/", "new.txt")` followed by `open(dev, "/new.txt")` returns
`FileNotFound` instead of the new zero-size inode: `create_new_file` looks
the parent up in the cache, which never contains directories (so the
lookup of `/` fails and the function returns early), the new directory
entry is only appended to an in-memory buffer that is never written to the
device, and the new inode is "persisted" through the zone-walking `write`
on an all-zero zone list, which writes nothing; the final `refresh`
rebuilds the cache from the unchanged directory tree. -/
theorem c4_create_then_open_not_found :
    (MinixFileSystem.openFile (MinixFileSystem.create 8 st45 "/" "new.txt") "/new.txt").fst
      = Except.error FsError.FileNotFound := by decide

/-- C5 (code_bug): after `delete(dev, "/file.txt", 3)` the path is indeed
gone — `open` returns `FileNotFound` (the zeroed directory entry is
persisted and `refresh` rebuilds the cache) — but the freed imap bit of
inode 3, bit `(3-1) % 8 = 2` of byte `(3-1)/8 = 0` of the imap region, is
still 1: the source clears bit `inode_num % 8 = 3` instead. -/
theorem c5_delete_imap_bit_not_cleared :
    (MinixFileSystem.openFile (MinixFileSystem.delete 8 st45 "/file.txt" 3) "/file.txt").fst
      = Except.error FsError.FileNotFound ∧
    diskByte (MinixFileSystem.delete 8 st45 "/file.txt" 3).disk (2 * 1024 + (3 - 1) / 8) &&&
      (1 <<< ((3 - 1) % 8)) ≠ 0 := by decide

/-- C6 counterexample: on the D6 disk the cache is not the set of regular
files reachable from the root.  The character-device entry `/cdev`
(mode `0o020644`, no regular bit) is cached although it is not a regular
file, and the regular file `/big/deep.txt` is reachable (18th entry of the
two-zone directory `big`) but not cached, because the build reads only the
first `min(1024, size)` bytes of each directory. -/
theorem c6_counterexample :
    (¬ ∀ p, ((lookupC p (MinixFileSystem.cache_at 8 D6 [] "/" 1)).isSome = true ↔
        p ∈ specFiles 8 D6 "/" 1)) ∧
    (lookupC "/cdev" (MinixFileSystem.cache_at 8 D6 [] "/" 1)).isSome = true ∧
    "/cdev" ∉ specFiles 8 D6 "/" 1 ∧
    (lookupC "/big/deep.txt" (MinixFileSystem.cache_at 8 D6 [] "/" 1)).isSome = false ∧
    "/big/deep.txt" ∈ specFiles 8 D6 "/" 1 := by
  refine ⟨fun h => ?_, by decide, by decide, by decide, by decide⟩
  exact absurd ((h "/cdev").mp (by decide)) (by decide)

/-- C6 (amended): after `refresh(dev)` the cache contains an entry for
path `p` iff `p` is reached by the build-time traversal as a non-directory
entry (`ReachesEntry`): the traversal examines only the first
`min(1024, size)` bytes of each directory, skips entry slots 0 and 1 and
slots with a zero inode field, recurses into entries whose mode has the
directory bit — directories themselves are never inserted — and inserts
every other entry, regular or not.  A first `init(dev)` on an absent cache
is exactly `refresh(dev)` (second conjunct). -/
theorem c6_cache_iff_reachable (fuel : Nat) (d : Disk) (c0 : Option Cache) (p : String) :
    ((((MinixFileSystem.refresh fuel ⟨d, c0⟩).cache).bind (fun btm => lookupC p btm)).isSome
        = true ↔ ReachesEntry fuel d "/" 1 p) ∧
    MinixFileSystem.init fuel ⟨d, none⟩ = MinixFileSystem.refresh fuel ⟨d, none⟩ := by
  constructor
  · show (lookupC p (MinixFileSystem.cache_at fuel d [] "/" 1)).isSome = true ↔ _
    rw [cache_lookup_iff_reach]
    simp [lookupC]
  · rfl

/-- C6 witness: the iff instantiated on the D45 disk at `/hello.txt`. -/
theorem c6_cache_iff_reachable_witness :
    ((((MinixFileSystem.refresh 8 ⟨D45, none⟩).cache).bind
        (fun btm => lookupC "/hello.txt" btm)).isSome = true ↔
      ReachesEntry 8 D45 "/" 1 "/hello.txt") ∧
    MinixFileSystem.init 8 ⟨D45, none⟩ = MinixFileSystem.refresh 8 ⟨D45, none⟩ :=
  c6_cache_iff_reachable 8 D45 none "/hello.txt"

/-- C7 counterexample: for inode 2 and the geometry the source itself
documents (`imap_blocks = 2`, `zmap_blocks = 4`), `get_inode_offset`
returns 0x2048 = 8264, while the location `get_inode` computes —
`(2 + imap + zmap) * 1024 + ((n-1)/16) * 1024 + 64 * ((n-1) % 16)` — is
8256. -/
theorem c7_counterexample :
    MinixFileSystem.get_inode_offset 2 = 8264 ∧ inodeTableLoc 2 4 2 = 8256 ∧
      MinixFileSystem.get_inode_offset 2 ≠ inodeTableLoc 2 4 2 := by decide

/-- C7 (amended): for every inode number `n ≥ 2`,
`get_inode_offset(n) = 0x2048 + (n - 2) * 0x40` sits exactly 8 bytes past
the inode-table entry location that `get_inode` computes for the geometry
`imap_blocks = 2`, `zmap_blocks = 4` — i.e. it is the byte offset of inode
`n`'s `size` field, not of the entry itself (the test harness uses it to
overwrite exactly that field). -/
theorem c7_inode_offset_plus8 (n : Nat) (h : 2 ≤ n) :
    MinixFileSystem.get_inode_offset n = inodeTableLoc 2 4 n + 8 := by
  unfold MinixFileSystem.get_inode_offset inodeTableLoc
  omega

/-- C7 witness: the amended relation at `n = 2`. -/
theorem c7_inode_offset_plus8_witness :
    MinixFileSystem.get_inode_offset 2 = inodeTableLoc 2 4 2 + 8 :=
  c7_inode_offset_plus8 2 (by decide)

/-- C8 counterexample: on the D8 disk (imap byte 0 = 0xFF, byte 1 = 0x01)
the first clear bit in scan order is byte 1, bit 1, so `find_free_inode`
returns `1 * 1024 + 1 = 1025`; but the imap bit of index 1025 — bit
`1025 % 8 = 1` of byte `1025 / 8 = 128` — is set, so the returned value is
not an index whose imap bit is 0 (and a fortiori not the lowest such,
which would be 9). -/
theorem c8_counterexample :
    MinixFileSystem.find_free_inode D8 = some 1025 ∧
    diskByte D8 (2 * 1024 + 1025 / 8) &&& (1 <<< (1025 % 8)) ≠ 0 := by decide

/-- C8 witness: the characterisation applied to the D8 disk and its result
1025. -/
theorem c8_find_free_first_clear_witness :
    ∃ blk i j, blk < readU16 D8 (1024 + 6) ∧ i < 1024 ∧ j < 8 ∧
      diskByte D8 ((2 + blk) * 1024 + i) &&& (1 <<< j) = 0 ∧ (1025 : Nat) = i * 1024 + j ∧
      ∀ blk' i' j', i' < 1024 → j' < 8 →
        (blk' < blk ∨ (blk' = blk ∧ i' < i) ∨ (blk' = blk ∧ i' = i ∧ j' < j)) →
        diskByte D8 ((2 + blk') * 1024 + i') &&& (1 <<< j') ≠ 0 :=
  (c8_find_free_first_clear D8).2 1025 (by decide)

/-- C9 (amended): `write` sets `inode.size` to `bytes_write` only on the
fall-through path where the zone walk exhausts every pointer, i.e. when
the returned count is short (`ret < size`, second conjunct); when a
positive write completes (`ret = size`), the function returns through an
early `return` and the inode — including `size` — is left unchanged (first
conjunct).  `write` itself never flushes the inode back to the inode
table: its device writes cover only the `size`-byte windows starting at
the walked zones' offsets, so every byte outside those windows — in
particular the whole inode table when the zones point at data blocks — is
unmodified (third conjunct). -/
theorem c9_write_size_and_frame (d : Disk) (ino : Inode) (data : List Nat) (size offset : Nat) :
    (0 < size → (MinixFileSystem.write d ino data size offset).ret = size →
      (MinixFileSystem.write d ino data size offset).inode = ino) ∧
    ((MinixFileSystem.write d ino data size offset).ret < size →
      (MinixFileSystem.write d ino data size offset).inode
        = { ino with size := (MinixFileSystem.write d ino data size offset).ret }) ∧
    (∀ a, (∀ z ∈ MinixFileSystem.writeZones d ino data size offset,
        z ≠ 0 → ¬(zoneOff z ≤ a ∧ a < zoneOff z + size)) →
      diskByte (MinixFileSystem.write d ino data size offset).disk a = diskByte d a) := by
  obtain ⟨h1, h2, h3⟩ := writeIndirect_inv d ino data size offset
  have hw : MinixFileSystem.write d ino data size offset
      = (if (MinixFileSystem.writeIndirect d ino data size offset).done = true then
          { ret := (MinixFileSystem.writeIndirect d ino data size offset).written, inode := ino,
            disk := (MinixFileSystem.writeIndirect d ino data size offset).disk }
        else
          { ret := (MinixFileSystem.writeIndirect d ino data size offset).written,
            inode := { ino with
              size := (MinixFileSystem.writeIndirect d ino data size offset).written },
            disk := (MinixFileSystem.writeIndirect d ino data size offset).disk }) := rfl
  refine ⟨?_, ?_, fun a hz => write_frame d ino data size offset a hz⟩
  · intro hpos hret
    rw [hw] at hret ⊢
    by_cases hd : (MinixFileSystem.writeIndirect d ino data size offset).done = true
    · rw [if_pos hd]
    · rw [if_neg hd] at hret ⊢
      dsimp only at hret
      exact absurd (h3 hpos (by omega)) hd
  · intro hret
    rw [hw] at hret ⊢
    by_cases hd : (MinixFileSystem.writeIndirect d ino data size offset).done = true
    · rw [if_pos hd] at hret ⊢
      dsimp only at hret
      exact absurd hret (by have := h2 hd; omega)
    · rw [if_neg hd]

/-- C9 witness: a complete 1-byte write on a one-zone file leaves the
inode unchanged, and a byte far from the written window keeps its value. -/
theorem c9_write_size_and_frame_witness :
    (MinixFileSystem.write zeroDisk wrIno [5] 1 0).inode = wrIno ∧
    diskByte (MinixFileSystem.write zeroDisk wrIno [5] 1 0).disk 5000
      = diskByte zeroDisk 5000 :=
  ⟨(c9_write_size_and_frame zeroDisk wrIno [5] 1 0).1 (by decide) (by decide),
   (c9_write_size_and_frame zeroDisk wrIno [5] 1 0).2.2 5000 (by decide)⟩

/-- C9 counterexample: a 1-byte write at offset 0 of a 7-byte one-zone
file returns `bytes_write = 1` through the early-return path, and the
in-memory `inode.size` is still 7, not `bytes_write`. -/
theorem c9_counterexample :
    (MinixFileSystem.write zeroDisk wrIno9 [42] 1 0).ret = 1 ∧
    (MinixFileSystem.write zeroDisk wrIno9 [42] 1 0).inode.size = 7 ∧ (7 : Nat) ≠ 1 := by
  decide

/-- C10 (confirmed): when the device's cache slot has never been built,
`open` returns `FileNotFound` for every path and every device content,
leaving the state — cache still absent, device untouched — unchanged; the
result does not depend on the device bytes at all (the disk is universally
quantified). -/
theorem c10_open_uninitialized (d : Disk) (p : String) :
    MinixFileSystem.openFile ⟨d, none⟩ p
      = (Except.error FsError.FileNotFound, ⟨d, none⟩) := rfl
